import Mathlib

/-!
Verification of the FDM-SUMO numeric pipeline against its specification.

The definitions in this file are shallow embeddings of the Python sources:

- src/simulation_full_pipeline_missing_data/src/process_gas_to_aqi.py
  (US AQI and Irish AQIH breakpoint converters),
- src/simulation_full_pipeline_missing_data/src/emission_models.py
  (diffusion-decay solver, noise model, timestep selection),
- src/simulation_full_pipeline_missing_data/src/process_data.py
  (snapshot statistics aggregator and moving-average windows),
- src/simulation_simplified/src/run_sim.py (driver timestep choice).

Python float arithmetic on the small literal tables is modelled exactly
by rational arithmetic; the noise model, which uses logarithms and
powers, is modelled over the real numbers.
-/

namespace FDMSumo

/-! ## US AQI converter (process_gas_to_aqi.py, calculate_aqi_for_pollutant_US_AQI) -/

/-- One row of a US AQI breakpoint table:
concentration_low, concentration_high, index_low, index_high. -/
structure UBreak where
  clow : ℚ
  chigh : ℚ
  ilow : ℚ
  ihigh : ℚ
deriving DecidableEq

/-- Pollutants scored by the US AQI converter. -/
inductive USPollutant where
  | co
  | no2
  | pm25
deriving DecidableEq

/-- The literal breakpoint tables of calculate_aqi_for_pollutant_US_AQI. -/
def usBreakpoints : USPollutant → List UBreak
  | .co => [⟨0, 44/10, 0, 50⟩, ⟨45/10, 94/10, 51, 100⟩, ⟨95/10, 124/10, 101, 150⟩,
      ⟨125/10, 154/10, 151, 200⟩, ⟨155/10, 304/10, 201, 300⟩, ⟨305/10, 404/10, 301, 400⟩,
      ⟨405/10, 504/10, 401, 500⟩]
  | .no2 => [⟨0, 53, 0, 50⟩, ⟨54, 100, 51, 100⟩, ⟨101, 360, 101, 150⟩,
      ⟨361, 649, 151, 200⟩, ⟨650, 1249, 201, 300⟩, ⟨1250, 1649, 301, 400⟩,
      ⟨1650, 2049, 401, 500⟩]
  | .pm25 => [⟨0, 12, 0, 50⟩, ⟨121/10, 354/10, 51, 100⟩, ⟨355/10, 554/10, 101, 150⟩,
      ⟨555/10, 1504/10, 151, 200⟩, ⟨1505/10, 2504/10, 201, 300⟩, ⟨2505/10, 3504/10, 301, 400⟩,
      ⟨3505/10, 5004/10, 401, 500⟩]

/-- The source scans its table in order and interpolates inside the first
tier with clow <= concentration <= chigh; if no tier matches it returns 500
when the concentration is above the last tier's upper bound and 0 otherwise. -/
def calculate_aqi_for_pollutant_US_AQI (concentration : ℚ) (p : USPollutant) : ℚ :=
  match (usBreakpoints p).find?
      (fun bp => decide (bp.clow ≤ concentration ∧ concentration ≤ bp.chigh)) with
  | some bp => ((bp.ihigh - bp.ilow) / (bp.chigh - bp.clow)) * (concentration - bp.clow) + bp.ilow
  | none =>
      if ((usBreakpoints p).getLastD ⟨0, 0, 0, 0⟩).chigh < concentration then 500 else 0

/-! ## Irish AQIH converter (process_gas_to_aqi.py, calculate_aqi_for_pollutant_AQIH) -/

/-- One row of an AQIH breakpoint table.  The upper bound is an Option:
none encodes the literal float inf used as the last tier's upper bound
in the source table. -/
structure HBreak where
  clow : ℚ
  chigh : Option ℚ
  ilow : ℚ
  ihigh : ℚ
deriving DecidableEq

/-- Pollutants scored by the AQIH converter.  The source asserts False on
CO, so CO is outside the function's domain and is left out of this type. -/
inductive AQIHPollutant where
  | no2
  | pm25
deriving DecidableEq

/-- The literal AQIH breakpoint tables; the last tier of each table has
upper bound float inf in the source, encoded here as none. -/
def aqihBreakpoints : AQIHPollutant → List HBreak
  | .no2 => [⟨0, some 67, 1, 1⟩, ⟨67, some 134, 1, 2⟩, ⟨134, some 200, 2, 3⟩,
      ⟨200, some 267, 3, 4⟩, ⟨267, some 334, 4, 5⟩, ⟨334, some 400, 5, 6⟩,
      ⟨400, some 467, 6, 7⟩, ⟨467, some 534, 7, 8⟩, ⟨534, some 600, 8, 9⟩,
      ⟨600, none, 9, 10⟩]
  | .pm25 => [⟨0, some 11, 1, 1⟩, ⟨11, some 23, 1, 2⟩, ⟨23, some 35, 2, 3⟩,
      ⟨35, some 53, 3, 4⟩, ⟨53, some 70, 4, 5⟩, ⟨70, some 88, 5, 6⟩,
      ⟨88, some 106, 6, 7⟩, ⟨106, some 124, 7, 8⟩, ⟨124, some 142, 8, 9⟩,
      ⟨142, none, 9, 10⟩]

/-- The source's half-open tier test clow <= c < chigh.  Every finite c
satisfies c < inf, so a none upper bound only tests the lower bound. -/
def hbrkMatch (c : ℚ) (bp : HBreak) : Bool :=
  match bp.chigh with
  | some h => decide (bp.clow ≤ c ∧ c < h)
  | none => decide (bp.clow ≤ c)

/-- The source's interpolation formula.  For the tier with upper bound
float inf, IEEE arithmetic gives slope (ihigh - ilow) / (inf - clow) = 0
exactly, and 0 * (c - clow) + ilow = ilow exactly for every finite c, so
the none case returns ilow. -/
def hbrkInterp (c : ℚ) (bp : HBreak) : ℚ :=
  match bp.chigh with
  | some h => ((bp.ihigh - bp.ilow) / (h - bp.clow)) * (c - bp.clow) + bp.ilow
  | none => bp.ilow

/-- Negative concentrations return 1; otherwise interpolate in the first
matching half-open tier; the fallthrough (reachable only for an input
that exceeds every tier, i.e. only for an infinite float) returns 10. -/
def calculate_aqi_for_pollutant_AQIH (c : ℚ) (p : AQIHPollutant) : ℚ :=
  if c < 0 then 1
  else
    match (aqihBreakpoints p).find? (hbrkMatch c) with
    | some bp => hbrkInterp c bp
    | none => 10

/-- C1: an NO2 concentration of exactly 600 yields index 9 as claimed, but
every finite concentration strictly above 600 (e.g. 700) also yields 9, not
the claimed 10: the final tier [600, inf) interpolates with slope
(10 - 9) / (inf - 600) = 0, so its value is constantly 9, and the
saturation branch returning 10 is unreachable for finite inputs.  The same
holds for PM2.5 at and above 142. -/
theorem c1_aqih_saturation_failing_input :
    calculate_aqi_for_pollutant_AQIH 600 .no2 = 9 ∧
    calculate_aqi_for_pollutant_AQIH 700 .no2 = 9 ∧
    calculate_aqi_for_pollutant_AQIH 700 .no2 ≠ 10 ∧
    calculate_aqi_for_pollutant_AQIH 142 .pm25 = 9 ∧
    calculate_aqi_for_pollutant_AQIH 150 .pm25 = 9 ∧
    calculate_aqi_for_pollutant_AQIH 150 .pm25 ≠ 10 := by
  decide

/-- C7: for every US AQI breakpoint tier of every pollutant, a
concentration exactly equal to the tier's upper bound yields exactly the
tier's index_high; in particular CO at 4.4 ppm yields AQI 50. -/
theorem c7_us_aqi_upper_bound_exact (p : USPollutant) :
    ∀ bp ∈ usBreakpoints p,
      calculate_aqi_for_pollutant_US_AQI bp.chigh p = bp.ihigh := by
  intro bp hbp
  cases p <;> fin_cases hbp <;>
    norm_num [calculate_aqi_for_pollutant_US_AQI, usBreakpoints, List.find?]

/-- Witness for C7: CO concentration exactly 4.4 ppm yields AQI 50. -/
theorem c7_witness :
    calculate_aqi_for_pollutant_US_AQI (44/10) .co = 50 :=
  c7_us_aqi_upper_bound_exact .co ⟨0, 44/10, 0, 50⟩ (by norm_num [usBreakpoints])

/-! ### Gaps between consecutive US AQI tiers (claim C10) -/

/-- Each tier is well formed: lower bound at most upper bound. -/
def usWfB : List UBreak → Bool
  | [] => true
  | bp :: rest => decide (bp.clow ≤ bp.chigh) && usWfB rest

/-- Every tier's upper bound is strictly below the next tier's lower
bound, as in the three literal US tables. -/
def usOrderedB : List UBreak → Bool
  | a :: b :: rest => decide (a.chigh < b.clow) && usOrderedB (b :: rest)
  | _ => true

/-- The concentration c lies strictly inside the gap between some pair of
consecutive tiers of the table. -/
def usGapB (t : List UBreak) (c : ℚ) : Bool :=
  match t with
  | a :: b :: rest => (decide (a.chigh < c) && decide (c < b.clow)) || usGapB (b :: rest) c
  | _ => false

theorem usWfB_mem {t : List UBreak} (hwf : usWfB t = true) :
    ∀ bp ∈ t, bp.clow ≤ bp.chigh := by
  induction t with
  | nil => simp
  | cons x rest ih =>
    simp only [usWfB, Bool.and_eq_true, decide_eq_true_eq] at hwf
    intro bp hbp
    rcases List.mem_cons.mp hbp with h | h
    · exact h ▸ hwf.1
    · exact ih hwf.2 bp h

theorem clow_le_of_head {t : List UBreak} (hwf : usWfB t = true)
    (hord : usOrderedB t = true) :
    ∀ a, t.head? = some a → ∀ bp ∈ t, a.clow ≤ bp.clow := by
  induction t with
  | nil => intro a ha; simp at ha
  | cons x rest ih =>
    intro a ha bp hbp
    obtain rfl : x = a := by simpa using ha
    rcases List.mem_cons.mp hbp with h | h
    · exact h ▸ le_refl _
    · cases rest with
      | nil => simp at h
      | cons y rest2 =>
        simp only [usWfB, usOrderedB, Bool.and_eq_true, decide_eq_true_eq] at hwf hord
        have h1 : x.clow ≤ x.chigh := hwf.1
        have h2 : x.chigh < y.clow := hord.1
        have h3 : y.clow ≤ bp.clow := by
          refine ih ?_ hord.2 y rfl bp h
          simp only [usWfB, Bool.and_eq_true, decide_eq_true_eq]
          exact hwf.2
        linarith

theorem gap_head_lt {t : List UBreak} (hwf : usWfB t = true)
    (hord : usOrderedB t = true) {c : ℚ} (hgap : usGapB t c = true) :
    ∀ a, t.head? = some a → a.chigh < c := by
  induction t with
  | nil => simp [usGapB] at hgap
  | cons x rest ih =>
    cases rest with
    | nil => simp [usGapB] at hgap
    | cons y rest2 =>
      intro a ha
      obtain rfl : x = a := by simpa using ha
      simp only [usGapB, Bool.or_eq_true, Bool.and_eq_true, decide_eq_true_eq] at hgap
      simp only [usWfB, usOrderedB, Bool.and_eq_true, decide_eq_true_eq] at hwf hord
      rcases hgap with ⟨h1, _⟩ | hdeep
      · exact h1
      · have hy : y.chigh < c := by
          refine ih ?_ hord.2 hdeep y rfl
          simp only [usWfB, Bool.and_eq_true, decide_eq_true_eq]
          exact hwf.2
        have h2 : x.chigh < y.clow := hord.1
        have h3 : y.clow ≤ y.chigh := hwf.2.1
        linarith

theorem gap_no_tier {t : List UBreak} (hwf : usWfB t = true)
    (hord : usOrderedB t = true) {c : ℚ} (hgap : usGapB t c = true) :
    ∀ bp ∈ t, ¬(bp.clow ≤ c ∧ c ≤ bp.chigh) := by
  induction t with
  | nil => simp
  | cons x rest ih =>
    cases rest with
    | nil => simp [usGapB] at hgap
    | cons y rest2 =>
      intro bp hbp
      simp only [usGapB, Bool.or_eq_true, Bool.and_eq_true, decide_eq_true_eq] at hgap
      simp only [usWfB, usOrderedB, Bool.and_eq_true, decide_eq_true_eq] at hwf hord
      have hwfRest : usWfB (y :: rest2) = true := by
        simp only [usWfB, Bool.and_eq_true, decide_eq_true_eq]
        exact hwf.2
      rcases hgap with ⟨h1, h2⟩ | hdeep
      · rcases List.mem_cons.mp hbp with h | h
        · subst h; rintro ⟨-, hc2⟩; linarith
        · have h3 : y.clow ≤ bp.clow := clow_le_of_head hwfRest hord.2 y rfl bp h
          rintro ⟨hc1, -⟩; linarith
      · rcases List.mem_cons.mp hbp with h | h
        · subst h
          have hy : y.chigh < c := gap_head_lt hwfRest hord.2 hdeep y rfl
          have h3 : bp.chigh < y.clow := hord.1
          have h4 : y.clow ≤ y.chigh := hwf.2.1
          rintro ⟨-, hc2⟩; linarith
        · exact ih hwfRest hord.2 hdeep bp h

theorem head_clow_le_last_chigh {t : List UBreak} (hwf : usWfB t = true)
    (hord : usOrderedB t = true) :
    ∀ a, t.head? = some a → ∀ lst, t.getLast? = some lst → a.clow ≤ lst.chigh := by
  induction t with
  | nil => intro a ha; simp at ha
  | cons x rest ih =>
    intro a ha lst hlst
    obtain rfl : x = a := by simpa using ha
    cases rest with
    | nil =>
      obtain rfl : x = lst := by simpa using hlst
      simp only [usWfB, Bool.and_eq_true, decide_eq_true_eq] at hwf
      exact hwf.1
    | cons y rest2 =>
      simp only [usWfB, usOrderedB, Bool.and_eq_true, decide_eq_true_eq] at hwf hord
      have hwfRest : usWfB (y :: rest2) = true := by
        simp only [usWfB, Bool.and_eq_true, decide_eq_true_eq]
        exact hwf.2
      have hlst2 : (y :: rest2).getLast? = some lst := by
        rw [← List.getLast?_cons_cons]
        exact hlst
      have h1 : y.clow ≤ lst.chigh := ih hwfRest hord.2 y rfl lst hlst2
      have h2 : x.clow ≤ x.chigh := hwf.1
      have h3 : x.chigh < y.clow := hord.1
      linarith

theorem gap_lt_last {t : List UBreak} (hwf : usWfB t = true)
    (hord : usOrderedB t = true) {c : ℚ} (hgap : usGapB t c = true) :
    ∀ lst, t.getLast? = some lst → c < lst.chigh := by
  induction t with
  | nil => simp [usGapB] at hgap
  | cons x rest ih =>
    cases rest with
    | nil => simp [usGapB] at hgap
    | cons y rest2 =>
      intro lst hlst
      simp only [usGapB, Bool.or_eq_true, Bool.and_eq_true, decide_eq_true_eq] at hgap
      simp only [usWfB, usOrderedB, Bool.and_eq_true, decide_eq_true_eq] at hwf hord
      have hwfRest : usWfB (y :: rest2) = true := by
        simp only [usWfB, Bool.and_eq_true, decide_eq_true_eq]
        exact hwf.2
      have hlst2 : (y :: rest2).getLast? = some lst := by
        rw [← List.getLast?_cons_cons]
        exact hlst
      rcases hgap with ⟨-, h2⟩ | hdeep
      · have h3 : y.clow ≤ lst.chigh := head_clow_le_last_chigh hwfRest hord.2 y rfl lst hlst2
        linarith
      · exact ih hwfRest hord.2 hdeep lst hlst2

/-- C10: a concentration strictly inside the gap between two consecutive
breakpoint tiers of any US AQI table (e.g. CO in (4.4, 4.5), NO2 in
(53, 54), PM2.5 in (12.0, 12.1)) matches no tier, and the converter
returns 0 rather than an interpolated or boundary value. -/
theorem c10_us_aqi_gap_returns_zero (p : USPollutant) (c : ℚ)
    (hgap : usGapB (usBreakpoints p) c = true) :
    calculate_aqi_for_pollutant_US_AQI c p = 0 := by
  have hwf : usWfB (usBreakpoints p) = true := by
    cases p <;> norm_num [usWfB, usBreakpoints]
  have hord : usOrderedB (usBreakpoints p) = true := by
    cases p <;> norm_num [usOrderedB, usBreakpoints]
  have hnone : (usBreakpoints p).find?
      (fun bp => decide (bp.clow ≤ c ∧ c ≤ bp.chigh)) = none := by
    rw [List.find?_eq_none]
    intro bp hbp
    simpa using gap_no_tier hwf hord hgap bp hbp
  obtain ⟨lst, hlst⟩ : ∃ lst, (usBreakpoints p).getLast? = some lst := by
    cases p <;> exact ⟨_, rfl⟩
  have hlt : c < lst.chigh := gap_lt_last hwf hord hgap lst hlst
  unfold calculate_aqi_for_pollutant_US_AQI
  rw [hnone]
  have hlast : (usBreakpoints p).getLastD ⟨0, 0, 0, 0⟩ = lst := by
    rw [List.getLastD_eq_getLast?, hlst]
    rfl
  rw [hlast, if_neg (not_lt.mpr (le_of_lt hlt))]

/-- Witness for C10: the CO concentration 4.45 lies in the gap between the
first two CO tiers and is scored 0. -/
theorem c10_witness :
    usGapB (usBreakpoints .co) (445/100) = true ∧
    calculate_aqi_for_pollutant_US_AQI (445/100) .co = 0 :=
  ⟨by norm_num [usGapB, usBreakpoints],
   c10_us_aqi_gap_returns_zero .co (445/100) (by norm_num [usGapB, usBreakpoints])⟩

/-! ## Diffusion-decay grid solver (emission_models.py) -/

/-- Value of the padded concentration array used by _process_diffusion.
process_gas_step fills the padded array with default_value,
_process_diffusion then writes old / V into the interior cells
(offset by one) and copies layer k = 1 onto layer k = 0 (the no-flux
bottom boundary).  Arguments i j k index the padded array. -/
def paddedVal (X Y Z : ℕ) (old : ℕ → ℕ → ℕ → ℚ) (V default_value : ℚ)
    (i j k : ℕ) : ℚ :=
  let interior : ℕ → ℕ → ℕ → ℚ := fun a b c =>
    if 1 ≤ a ∧ a ≤ X ∧ 1 ≤ b ∧ b ≤ Y ∧ 1 ≤ c ∧ c ≤ Z then
      old (a - 1) (b - 1) (c - 1) / V
    else default_value
  if k = 0 then interior i j 1 else interior i j k

/-- One explicit Euler sub-step of the solver (_process_diffusion in the
source, argument order preserved): each in-range cell reads the centered
second-difference Laplacian from the padded pre-step copy, applies decay,
and is clamped from below by default_value * V.  Cells outside the
X x Y x Z array are untouched. -/
def _process_diffusion (X Y Z : ℕ) (old : ℕ → ℕ → ℕ → ℚ)
    (dx2 dy2 dz2 diffusion loss_rate default_value dt V : ℚ) :
    ℕ → ℕ → ℕ → ℚ := fun i j k =>
  if i < X ∧ j < Y ∧ k < Z then
    let p := paddedVal X Y Z old V default_value
    let diff_x := diffusion / dx2
    let diff_y := diffusion / dy2
    let diff_z := diffusion / dz2
    let diff_change :=
      diff_x * (p (i+2) (j+1) (k+1) + p i (j+1) (k+1) - 2 * p (i+1) (j+1) (k+1)) +
      diff_y * (p (i+1) (j+2) (k+1) + p (i+1) j (k+1) - 2 * p (i+1) (j+1) (k+1)) +
      diff_z * (p (i+1) (j+1) (k+2) + p (i+1) (j+1) k - 2 * p (i+1) (j+1) (k+1))
    let updated := old i j k + dt * V * diff_change - dt * loss_rate * old i j k
    if updated < default_value * V then default_value * V else updated
  else old i j k

/-- Emission injection (_add_emissions in the source): each source
(x_idx, y_idx, e) with 0 <= x_idx < X and 0 <= y_idx < Y adds e to cell
(x_idx, y_idx, 0); out-of-bounds sources are skipped. -/
def _add_emissions (X Y : ℕ) (old : ℕ → ℕ → ℕ → ℚ) :
    List (ℤ × ℤ × ℚ) → ℕ → ℕ → ℕ → ℚ
  | [] => old
  | s :: rest =>
      _add_emissions X Y
        (if 0 ≤ s.1 ∧ s.1 < (X : ℤ) ∧ 0 ≤ s.2.1 ∧ s.2.1 < (Y : ℤ) then
          fun a b c =>
            if (a : ℤ) = s.1 ∧ (b : ℤ) = s.2.1 ∧ c = 0 then old a b c + s.2.2
            else old a b c
        else old) rest

/-- Core of process_gas_step: inject the per-step emissions at z = 0 (the
SUMO-coordinate-to-index conversion happens upstream), then run one
diffusion sub-step with V = clx * cly * clz and the squared cell
dimensions, exactly as process_gas_step computes them. -/
def process_gas_step (X Y Z : ℕ) (old : ℕ → ℕ → ℕ → ℚ)
    (sources : List (ℤ × ℤ × ℚ))
    (clx cly clz default_value diffusion loss_rate dt : ℚ) :
    ℕ → ℕ → ℕ → ℚ :=
  _process_diffusion X Y Z (_add_emissions X Y old sources)
    (clx * clx) (cly * cly) (clz * clz) diffusion loss_rate default_value dt
    (clx * cly * clz)

/-- C3: after any solver step (non-negative input field, any source list,
positive cell sizes, diffusion_coeff >= 0, decay_rate >= 0, dt > 0) every
cell of the returned field is at least default_value * cell_volume: the
final clamp of _process_diffusion enforces the floor unconditionally. -/
theorem c3_floor_invariant (X Y Z : ℕ) (old : ℕ → ℕ → ℕ → ℚ)
    (sources : List (ℤ × ℤ × ℚ))
    (clx cly clz default_value diffusion loss_rate dt : ℚ)
    (hold : ∀ i j k : ℕ, 0 ≤ old i j k)
    (hclx : 0 < clx) (hcly : 0 < cly) (hclz : 0 < clz)
    (hdiff : 0 ≤ diffusion) (hloss : 0 ≤ loss_rate) (hdt : 0 < dt)
    (i j k : ℕ) (hi : i < X) (hj : j < Y) (hk : k < Z) :
    default_value * (clx * cly * clz) ≤
      process_gas_step X Y Z old sources clx cly clz default_value diffusion
        loss_rate dt i j k := by
  unfold process_gas_step _process_diffusion
  rw [if_pos ⟨hi, hj, hk⟩]
  dsimp only
  split
  · exact le_refl _
  · next h => exact le_of_not_lt h

/-- Witness for C3: a 1 x 1 x 1 grid with unit parameters. -/
theorem c3_witness :
    (1 : ℚ) * ((1 : ℚ) * 1 * 1) ≤
      process_gas_step 1 1 1 (fun _ _ _ => (1 : ℚ)) [(0, 0, 2)] 1 1 1 1 1 0 1 0 0 0 :=
  c3_floor_invariant 1 1 1 (fun _ _ _ => (1 : ℚ)) [(0, 0, 2)] 1 1 1 1 1 0 1
    (fun _ _ _ => by norm_num) (by norm_num) (by norm_num) (by norm_num)
    (by norm_num) (by norm_num) (by norm_num) 0 0 0
    (by norm_num) (by norm_num) (by norm_num)

/-- Mass added to cell (i, j, k) by one source, following the claim's
wording: an in-bounds source (x, y, m) adds m to cell (x, y, 0) and
out-of-bounds sources are dropped. -/
def sourceMass (X Y : ℕ) (i j k : ℕ) (s : ℤ × ℤ × ℚ) : ℚ :=
  if (i : ℤ) = s.1 ∧ (j : ℤ) = s.2.1 ∧ k = 0 ∧
      0 ≤ s.1 ∧ s.1 < (X : ℤ) ∧ 0 ≤ s.2.1 ∧ s.2.1 < (Y : ℤ) then
    s.2.2
  else 0

/-- Total mass injected into cell (i, j, k) by a source list. -/
def injectedMass (X Y : ℕ) (sources : List (ℤ × ℤ × ℚ)) (i j k : ℕ) : ℚ :=
  (sources.map (sourceMass X Y i j k)).sum

theorem _add_emissions_spec (X Y : ℕ) (sources : List (ℤ × ℤ × ℚ)) :
    ∀ (old : ℕ → ℕ → ℕ → ℚ) (i j k : ℕ),
      _add_emissions X Y old sources i j k =
        old i j k + injectedMass X Y sources i j k := by
  induction sources with
  | nil =>
    intro old i j k
    simp [_add_emissions, injectedMass]
  | cons s rest ih =>
    intro old i j k
    rw [_add_emissions, ih]
    have hstep :
        (if 0 ≤ s.1 ∧ s.1 < (X : ℤ) ∧ 0 ≤ s.2.1 ∧ s.2.1 < (Y : ℤ) then
          fun (a b c : ℕ) =>
            if (a : ℤ) = s.1 ∧ (b : ℤ) = s.2.1 ∧ c = 0 then old a b c + s.2.2
            else old a b c
        else old) i j k = old i j k + sourceMass X Y i j k s := by
      by_cases hb : 0 ≤ s.1 ∧ s.1 < (X : ℤ) ∧ 0 ≤ s.2.1 ∧ s.2.1 < (Y : ℤ)
      · rw [if_pos hb]
        by_cases hm : (i : ℤ) = s.1 ∧ (j : ℤ) = s.2.1 ∧ k = 0
        · have h1 : sourceMass X Y i j k s = s.2.2 := by
            unfold sourceMass
            rw [if_pos ⟨hm.1, hm.2.1, hm.2.2, hb.1, hb.2.1, hb.2.2.1, hb.2.2.2⟩]
          show (if (i : ℤ) = s.1 ∧ (j : ℤ) = s.2.1 ∧ k = 0 then old i j k + s.2.2
            else old i j k) = old i j k + sourceMass X Y i j k s
          rw [if_pos hm, h1]
        · have h1 : sourceMass X Y i j k s = 0 := by
            unfold sourceMass
            rw [if_neg]
            intro hc
            exact hm ⟨hc.1, hc.2.1, hc.2.2.1⟩
          show (if (i : ℤ) = s.1 ∧ (j : ℤ) = s.2.1 ∧ k = 0 then old i j k + s.2.2
            else old i j k) = old i j k + sourceMass X Y i j k s
          rw [if_neg hm, h1, add_zero]
      · rw [if_neg hb]
        have h1 : sourceMass X Y i j k s = 0 := by
          unfold sourceMass
          rw [if_neg]
          intro hc
          exact hb ⟨hc.2.2.2.1, hc.2.2.2.2.1, hc.2.2.2.2.2.1, hc.2.2.2.2.2.2⟩
        rw [h1, add_zero]
    rw [hstep]
    unfold injectedMass
    rw [List.map_cons, List.sum_cons]
    ring

theorem injectedMass_nonneg (X Y : ℕ) (sources : List (ℤ × ℤ × ℚ))
    (hmass : ∀ s ∈ sources, 0 ≤ s.2.2) (i j k : ℕ) :
    0 ≤ injectedMass X Y sources i j k := by
  unfold injectedMass
  refine List.sum_nonneg ?_
  intro q hq
  rcases List.mem_map.mp hq with ⟨s, hs, rfl⟩
  unfold sourceMass
  split
  · exact hmass s hs
  · exact le_refl 0

/-- C4: with diffusion_coeff = 0 and decay_rate = 0 and an input field
already at or above the background floor, a solver step changes the field
only by source injection: each in-bounds source (x, y, m) with m >= 0
adds exactly m to cell (x, y, 0), out-of-bounds sources are dropped, and
every other cell keeps its prior value exactly. -/
theorem c4_zero_diffusion_frame (X Y Z : ℕ) (old : ℕ → ℕ → ℕ → ℚ)
    (sources : List (ℤ × ℤ × ℚ)) (clx cly clz default_value dt : ℚ)
    (hfloor : ∀ i j k : ℕ,
      default_value * (clx * cly * clz) ≤ old i j k)
    (hmass : ∀ s ∈ sources, 0 ≤ s.2.2)
    (i j k : ℕ) (hi : i < X) (hj : j < Y) (hk : k < Z) :
    process_gas_step X Y Z old sources clx cly clz default_value 0 0 dt i j k =
      old i j k + injectedMass X Y sources i j k := by
  have hinj := _add_emissions_spec X Y sources old i j k
  have hge : default_value * (clx * cly * clz) ≤
      _add_emissions X Y old sources i j k := by
    rw [hinj]
    have := injectedMass_nonneg X Y sources hmass i j k
    have := hfloor i j k
    linarith
  unfold process_gas_step _process_diffusion
  rw [if_pos ⟨hi, hj, hk⟩]
  dsimp only
  simp only [zero_div, zero_mul, mul_zero, add_zero, zero_add, sub_zero]
  rw [if_neg (not_lt.mpr hge), hinj]

/-- Witness for C4: one in-bounds source of mass 2 on a 1 x 1 x 1 grid. -/
theorem c4_witness :
    process_gas_step 1 1 1 (fun _ _ _ => (1 : ℚ)) [(0, 0, 2)] 1 1 1 1 0 0 1 0 0 0 =
      (fun _ _ _ => (1 : ℚ)) 0 0 0 + injectedMass 1 1 [(0, 0, 2)] 0 0 0 :=
  c4_zero_diffusion_frame 1 1 1 (fun _ _ _ => (1 : ℚ)) [(0, 0, 2)] 1 1 1 1 1
    (fun _ _ _ => by norm_num)
    (by intro s hs; simp at hs; rw [hs]; norm_num)
    0 0 0 (by norm_num) (by norm_num) (by norm_num)

/-! ## Timestep selection (calculate_optimal_dt and the run_sim.py driver) -/

/-- calculate_optimal_dt: maximum stable timestep
2 / (loss_rate + 4 * (diff_x + diff_y + diff_z)) with
diff_axis = diffusion / cell_len_axis^2, multiplied by the safety
factor. -/
def calculate_optimal_dt
    (cell_len_x_m cell_len_y_m cell_len_z_m diffusion loss_rate safety_factor : ℚ) : ℚ :=
  let diff_x := diffusion / (cell_len_x_m * cell_len_x_m)
  let diff_y := diffusion / (cell_len_y_m * cell_len_y_m)
  let diff_z := diffusion / (cell_len_z_m * cell_len_z_m)
  2 / (loss_rate + 4 * (diff_x + diff_y + diff_z)) * safety_factor

/-- The driver's timestep choice (run_sim.py):
n = ceil(1 / dt); dt = 1 / n; dt = min(dt, 1). -/
def driver_dt (dtOpt : ℚ) : ℚ := min (1 / ((⌈1 / dtOpt⌉ : ℤ) : ℚ)) 1

/-- C5: calculate_optimal_dt computes exactly
2 / (decay + 4 * (D / dx^2 + D / dy^2 + D / dz^2)) times the safety
factor, and the driver sets dt = 1 / n where n = ceil(1 / dt_opt) is the
smallest positive integer with 1 / n <= dt_opt, capped at 1 second (the
cap never fires because n >= 1 already gives 1 / n <= 1). -/
theorem c5_dt_selection (clx cly clz diffusion loss_rate sf : ℚ)
    (hpos : 0 < loss_rate + 4 * (diffusion / (clx * clx) + diffusion / (cly * cly) +
      diffusion / (clz * clz)))
    (hsf : 0 < sf)
    (m : ℤ) (hm : 0 < m)
    (hmle : 1 / (m : ℚ) ≤ calculate_optimal_dt clx cly clz diffusion loss_rate sf) :
    calculate_optimal_dt clx cly clz diffusion loss_rate sf =
      2 / (loss_rate + 4 * (diffusion / (clx * clx) + diffusion / (cly * cly) +
        diffusion / (clz * clz))) * sf ∧
    0 < ⌈1 / calculate_optimal_dt clx cly clz diffusion loss_rate sf⌉ ∧
    driver_dt (calculate_optimal_dt clx cly clz diffusion loss_rate sf) =
      1 / ((⌈1 / calculate_optimal_dt clx cly clz diffusion loss_rate sf⌉ : ℤ) : ℚ) ∧
    1 / ((⌈1 / calculate_optimal_dt clx cly clz diffusion loss_rate sf⌉ : ℤ) : ℚ) ≤
      calculate_optimal_dt clx cly clz diffusion loss_rate sf ∧
    ⌈1 / calculate_optimal_dt clx cly clz diffusion loss_rate sf⌉ ≤ m ∧
    driver_dt (calculate_optimal_dt clx cly clz diffusion loss_rate sf) ≤ 1 := by
  set q := calculate_optimal_dt clx cly clz diffusion loss_rate sf with hq
  have hqval : q = 2 / (loss_rate + 4 * (diffusion / (clx * clx) + diffusion / (cly * cly) +
      diffusion / (clz * clz))) * sf := rfl
  have hqpos : 0 < q := by
    rw [hqval]
    exact mul_pos (div_pos two_pos hpos) hsf
  have hinvpos : 0 < 1 / q := by positivity
  have hnpos : 0 < ⌈1 / q⌉ := by
    rw [Int.lt_ceil]
    exact_mod_cast hinvpos
  have hnQ : (0 : ℚ) < ((⌈1 / q⌉ : ℤ) : ℚ) := by exact_mod_cast hnpos
  have hle : 1 / ((⌈1 / q⌉ : ℤ) : ℚ) ≤ q := by
    rw [one_div_le hnQ hqpos]
    exact Int.le_ceil (1 / q)
  have hmin : ⌈1 / q⌉ ≤ m := by
    rw [Int.ceil_le]
    have hmQ : (0 : ℚ) < (m : ℚ) := by exact_mod_cast hm
    exact (one_div_le hqpos hmQ).mpr hmle
  have hone : 1 / ((⌈1 / q⌉ : ℤ) : ℚ) ≤ 1 := by
    rw [div_le_one hnQ]
    exact_mod_cast hnpos
  have hdrv : driver_dt q = 1 / ((⌈1 / q⌉ : ℤ) : ℚ) := by
    unfold driver_dt
    exact min_eq_left hone
  exact ⟨hqval, hnpos, hdrv, hle, hmin, by rw [hdrv]; exact hone⟩

/-- Witness for C5: the driver's own configuration, cells of 10 m, the
worst-case diffusion coefficient 15 and zero decay, safety factor 0.8,
giving dt_opt = 8/9 and the driver timestep 1/2 with m = 2 realizing the
minimality bound. -/
theorem c5_witness :
    driver_dt (calculate_optimal_dt 10 10 10 15 0 (4/5)) =
      1 / ((⌈1 / calculate_optimal_dt 10 10 10 15 0 (4/5)⌉ : ℤ) : ℚ) ∧
    ⌈1 / calculate_optimal_dt 10 10 10 15 0 (4/5)⌉ ≤ 2 ∧
    driver_dt (calculate_optimal_dt 10 10 10 15 0 (4/5)) ≤ 1 := by
  have h := c5_dt_selection 10 10 10 15 0 (4/5)
    (by norm_num) (by norm_num) 2 (by norm_num)
    (by norm_num [calculate_optimal_dt])
  exact ⟨h.2.2.1, h.2.2.2.2.1, h.2.2.2.2.2⟩

/-! ## Snapshot statistics aggregator (process_data.py, calculate_statistics) -/

/-- max_array of calculate_statistics: np.zeros start, then an
np.maximum update per snapshot, cell-wise. -/
def max_array (snaps : List (ℕ → ℕ → ℚ)) : ℕ → ℕ → ℚ :=
  snaps.foldl (fun acc g i j => max (acc i j) (g i j)) (fun _ _ => 0)

/-- The np.minimum fold of calculate_statistics: the accumulator starts
at np.inf, modelled as the top element of WithTop. -/
def min_fold (snaps : List (ℕ → ℕ → ℚ)) : ℕ → ℕ → WithTop ℚ :=
  snaps.foldl (fun acc g i j => min (acc i j) ((g i j : ℚ) : WithTop ℚ)) (fun _ _ => ⊤)

/-- min_array after the final isinf-to-zero replacement of
calculate_statistics. -/
def min_array (snaps : List (ℕ → ℕ → ℚ)) : ℕ → ℕ → ℚ := fun i j =>
  (min_fold snaps i j).untop' 0

/-- sum_array of calculate_statistics. -/
def sum_array (snaps : List (ℕ → ℕ → ℚ)) : ℕ → ℕ → ℚ :=
  snaps.foldl (fun acc g i j => acc i j + g i j) (fun _ _ => 0)

/-- avg_array = sum_array / file_count if file_count > 0 else
sum_array. -/
def avg_array (snaps : List (ℕ → ℕ → ℚ)) : ℕ → ℕ → ℚ := fun i j =>
  if 0 < snaps.length then sum_array snaps i j / (snaps.length : ℚ)
  else sum_array snaps i j

theorem foldl_pointwise {β : Type} (op : β → ℚ → β) (snaps : List (ℕ → ℕ → ℚ)) :
    ∀ (a : ℕ → ℕ → β) (i j : ℕ),
      (snaps.foldl (fun acc g i j => op (acc i j) (g i j)) a) i j =
        (snaps.map (fun g => g i j)).foldl op (a i j) := by
  induction snaps with
  | nil => intro a i j; rfl
  | cons g rest ih =>
    intro a i j
    rw [List.foldl_cons, List.map_cons, List.foldl_cons]
    exact ih _ i j

theorem foldl_max_init (l : List ℚ) : ∀ a : ℚ, a ≤ l.foldl max a := by
  induction l with
  | nil => intro a; exact le_refl a
  | cons x rest ih =>
    intro a
    rw [List.foldl_cons]
    exact le_trans (le_max_left a x) (ih (max a x))

theorem foldl_max_mem (l : List ℚ) : ∀ a : ℚ, ∀ x ∈ l, x ≤ l.foldl max a := by
  induction l with
  | nil => simp
  | cons y rest ih =>
    intro a x hx
    rw [List.foldl_cons]
    rcases List.mem_cons.mp hx with rfl | hx2
    · exact le_trans (le_max_right a x) (foldl_max_init rest (max a x))
    · exact ih (max a y) x hx2

theorem foldl_minT_init (l : List ℚ) :
    ∀ a : WithTop ℚ, l.foldl (fun acc q => min acc ((q : ℚ) : WithTop ℚ)) a ≤ a := by
  induction l with
  | nil => intro a; exact le_refl a
  | cons x rest ih =>
    intro a
    rw [List.foldl_cons]
    exact le_trans (ih _) (min_le_left a _)

theorem foldl_minT_mem (l : List ℚ) :
    ∀ a : WithTop ℚ, ∀ x ∈ l,
      l.foldl (fun acc q => min acc ((q : ℚ) : WithTop ℚ)) a ≤ ((x : ℚ) : WithTop ℚ) := by
  induction l with
  | nil => simp
  | cons y rest ih =>
    intro a x hx
    rw [List.foldl_cons]
    rcases List.mem_cons.mp hx with rfl | hx2
    · exact le_trans (foldl_minT_init rest _) (min_le_right a _)
    · exact ih (min a y) x hx2

/-- C8: for every pollutant key with at least one snapshot, the
aggregator's per-cell outputs satisfy max >= avg >= min at every grid
cell, where avg is the arithmetic mean over all snapshots. -/
theorem c8_max_avg_min (snaps : List (ℕ → ℕ → ℚ)) (hne : snaps ≠ [])
    (i j : ℕ) :
    avg_array snaps i j ≤ max_array snaps i j ∧
    min_array snaps i j ≤ avg_array snaps i j := by
  set l := snaps.map (fun g => g i j) with hl
  have hlen : l.length = snaps.length := List.length_map snaps _
  have hlne : l ≠ [] := by
    intro h
    exact hne (List.map_eq_nil_iff.mp (hl ▸ h))
  have hn : 0 < snaps.length := List.length_pos.mpr hne
  have hnQ : (0 : ℚ) < (snaps.length : ℚ) := by exact_mod_cast hn
  have hsum : sum_array snaps i j = l.sum := by
    unfold sum_array
    rw [foldl_pointwise, List.sum_eq_foldl]
  have havg : avg_array snaps i j = l.sum / (snaps.length : ℚ) := by
    unfold avg_array
    rw [if_pos hn, hsum]
  have hmax : max_array snaps i j = l.foldl max 0 := by
    unfold max_array
    rw [foldl_pointwise]
  constructor
  · rw [havg, hmax, div_le_iff₀ hnQ]
    have hb : ∀ x ∈ l, x ≤ l.foldl max 0 := foldl_max_mem l 0
    have h1 := List.sum_le_card_nsmul l (l.foldl max 0) hb
    rw [hlen, nsmul_eq_mul, mul_comm] at h1
    exact h1
  · have hminf : min_fold snaps i j =
        l.foldl (fun acc q => min acc ((q : ℚ) : WithTop ℚ)) ⊤ := by
      unfold min_fold
      exact foldl_pointwise (fun acc q => min acc ((q : ℚ) : WithTop ℚ)) snaps
        (fun _ _ => ⊤) i j
    obtain ⟨y, rest, hyl⟩ := List.exists_cons_of_ne_nil hlne
    have hnetop : min_fold snaps i j ≠ ⊤ := by
      rw [hminf]
      intro htop
      have h1 := foldl_minT_mem l ⊤ y (by rw [hyl]; exact List.mem_cons_self y rest)
      rw [htop] at h1
      exact absurd (top_le_iff.mp h1) (WithTop.coe_ne_top)
    obtain ⟨mval, hmval⟩ := WithTop.ne_top_iff_exists.mp hnetop
    have hminval : min_array snaps i j = mval := by
      unfold min_array
      rw [← hmval]
      exact WithTop.untop'_coe 0 mval
    have hmle : ∀ x ∈ l, mval ≤ x := by
      intro x hx
      have h1 := foldl_minT_mem l ⊤ x hx
      rw [← hminf, ← hmval] at h1
      exact_mod_cast h1
    have hb := List.card_nsmul_le_sum l mval hmle
    rw [hlen, nsmul_eq_mul, mul_comm] at hb
    rw [havg, hminval, le_div_iff₀ hnQ]
    exact hb

/-- Witness for C8: a two-snapshot key, evaluated at cell (0, 0). -/
theorem c8_witness :
    avg_array [fun _ _ => 1, fun _ _ => 3] 0 0 ≤ max_array [fun _ _ => 1, fun _ _ => 3] 0 0 ∧
    min_array [fun _ _ => 1, fun _ _ => 3] 0 0 ≤ avg_array [fun _ _ => 1, fun _ _ => 3] 0 0 :=
  c8_max_avg_min [fun _ _ => 1, fun _ _ => 3] (by simp) 0 0

/-! ## Moving averages (process_data.py, calculate_moving_average_for_window) -/

/-- One start time of calculate_moving_average_for_window: the snapshots
with start <= t < start + window_size are collected; if there are at
least min_points of them the cell-wise mean is produced, labeled with
int(start / 3600) (floor division, start being a non-negative
integer). -/
def windowOutput (timestamps : List ℕ) (data : ℕ → ℕ → ℕ → ℚ)
    (window_size min_points start : ℕ) : Option (ℕ × (ℕ → ℕ → ℚ)) :=
  let wts := timestamps.filter (fun t => decide (start ≤ t ∧ t < start + window_size))
  if min_points ≤ wts.length then
    some (start / 3600,
      fun i j => (wts.map (fun t => data t i j)).sum / (wts.length : ℚ))
  else none

/-- calculate_moving_average_for_window loops windowOutput over every
observed start timestamp. -/
def calculate_moving_average_for_window (timestamps : List ℕ)
    (data : ℕ → ℕ → ℕ → ℚ) (window_size min_points : ℕ) :
    List (ℕ × (ℕ → ℕ → ℚ)) :=
  timestamps.filterMap (windowOutput timestamps data window_size min_points)

/-- The three window families of calculate_moving_averages:
(window_size, min_points). -/
def windows : List (ℕ × ℕ) := [(3600, 1), (28800, 8), (86400, 24)]

/-- Modelled from the claim's words: an output for start time t exists
iff at least min_points observed timestamps fall in the half-open
interval [t, t + window_size), and then equals the cell-wise arithmetic
mean of exactly the snapshots whose timestamps fall in that interval,
labeled with hour floor(t / 3600). -/
def claimWindowOutput (timestamps : List ℕ) (data : ℕ → ℕ → ℕ → ℚ)
    (window_size min_points start : ℕ) : Option (ℕ × (ℕ → ℕ → ℚ)) :=
  if min_points ≤
      timestamps.countP (fun t => decide (start ≤ t ∧ t < start + window_size)) then
    some (start / 3600,
      fun i j =>
        ((timestamps.filter (fun t => decide (start ≤ t ∧ t < start + window_size))).map
            (fun t => data t i j)).sum /
          ((timestamps.countP (fun t => decide (start ≤ t ∧ t < start + window_size)) : ℕ) : ℚ))
  else none

/-- C6: for every window family in the source's list and every observed
start timestamp, the produced windowed average agrees with the claim's
description, and an output exists iff at least min_points observed
timestamps fall in [start, start + window_size). -/
theorem c6_moving_average (timestamps : List ℕ) (data : ℕ → ℕ → ℕ → ℚ)
    (window_size min_points start : ℕ)
    (hw : (window_size, min_points) ∈ windows)
    (hs : start ∈ timestamps) :
    windowOutput timestamps data window_size min_points start =
      claimWindowOutput timestamps data window_size min_points start ∧
    ((windowOutput timestamps data window_size min_points start).isSome ↔
      min_points ≤
        timestamps.countP (fun t => decide (start ≤ t ∧ t < start + window_size))) := by
  have hcount : timestamps.countP
      (fun t => decide (start ≤ t ∧ t < start + window_size)) =
      (timestamps.filter (fun t => decide (start ≤ t ∧ t < start + window_size))).length :=
    List.countP_eq_length_filter _ _
  constructor
  · unfold windowOutput claimWindowOutput
    rw [hcount]
  · unfold windowOutput
    rw [hcount]
    dsimp only
    split
    · next h =>
      simp only [Option.isSome_some, true_iff]
      exact h
    · next h =>
      simp only [Option.isSome_none, Bool.false_eq_true, false_iff]
      exact h

/-- Witness for C6: two snapshots an hour apart, the 1-hour window at
start 0. -/
theorem c6_witness :
    windowOutput [0, 3600] (fun _ _ _ => 1) 3600 1 0 =
      claimWindowOutput [0, 3600] (fun _ _ _ => 1) 3600 1 0 ∧
    ((windowOutput [0, 3600] (fun _ _ _ => 1) 3600 1 0).isSome ↔
      1 ≤ ([0, 3600] : List ℕ).countP (fun t => decide (0 ≤ t ∧ t < 0 + 3600))) :=
  c6_moving_average [0, 3600] (fun _ _ _ => 1) 3600 1 0 (by decide) (by decide)

/-! ## Timestamp grouping (process_data.py, process_data_statistics) -/

/-- Python's round-half-to-even on a rational, as used by
process_data_statistics in round(timestamp / 3600). -/
def pyRound (q : ℚ) : ℤ :=
  let f := ⌊q⌋
  let r := q - (f : ℚ)
  if r < 1/2 then f
  else if 1/2 < r then f + 1
  else if f % 2 = 0 then f else f + 1

/-- The grouping step's timestamp rounding:
round(timestamp / 3600) * 3600. -/
def roundTimestamp (t : ℕ) : ℤ := pyRound ((t : ℚ) / 3600) * 3600

/-- The grouping step's validation: rounded timestamps outside
[0, 86400] are dropped (with a warning), the rest are kept. -/
def validTimestamps (ts : List ℕ) : List ℤ :=
  (ts.map roundTimestamp).filter (fun r => decide (0 ≤ r ∧ r ≤ 86400))

theorem pyRound_dist (q : ℚ) : |((pyRound q : ℤ) : ℚ) - q| ≤ 1/2 := by
  unfold pyRound
  have hfl : (⌊q⌋ : ℚ) ≤ q := Int.floor_le q
  have hfu : q < (⌊q⌋ : ℚ) + 1 := Int.lt_floor_add_one q
  dsimp only
  split
  · next h =>
    rw [abs_sub_comm, abs_of_nonneg (by linarith)]
    linarith
  · next h =>
    push_neg at h
    split
    · next h2 =>
      push_cast
      rw [abs_of_nonneg (by linarith)]
      linarith
    · next h2 =>
      push_neg at h2
      have hr : q - (⌊q⌋ : ℚ) = 1/2 := le_antisymm h2 h
      split
      · rw [abs_sub_comm, abs_of_nonneg (by linarith)]
        linarith
      · push_cast
        rw [abs_of_nonneg (by linarith)]
        linarith

theorem pyRound_nearest (q : ℚ) (z : ℤ) :
    |((pyRound q : ℤ) : ℚ) - q| ≤ |(z : ℚ) - q| := by
  rcases eq_or_ne z (pyRound q) with rfl | hne
  · exact le_refl _
  · have h1 : (1 : ℚ) ≤ |(z : ℚ) - ((pyRound q : ℤ) : ℚ)| := by
      rw [← Int.cast_sub]
      rw [← Int.cast_abs]
      exact_mod_cast Int.one_le_abs (sub_ne_zero.mpr hne)
    have h2 := pyRound_dist q
    have h3 : |(z : ℚ) - ((pyRound q : ℤ) : ℚ)| ≤
        |(z : ℚ) - q| + |q - ((pyRound q : ℤ) : ℚ)| := abs_sub_le _ _ _
    rw [abs_sub_comm q] at h3
    linarith

/-- C9: rounded timestamps are always multiples of 3600 and are nearest
hour boundaries (Python's banker rounding picks a nearest multiple, the
even one on exact half-hours); a snapshot is kept iff its rounded
timestamp lies in [0, 86400], others are dropped from the grouping; and
a key with zero snapshots yields no moving-average output, while the
average guard of calculate_statistics degrades to the raw sum instead of
dividing by zero. -/
theorem c9_grouping (t : ℕ) (k : ℤ) (ts : List ℕ) (r : ℤ)
    (data : ℕ → ℕ → ℕ → ℚ) (window_size min_points i j : ℕ) :
    roundTimestamp t % 3600 = 0 ∧
    |((roundTimestamp t : ℤ) : ℚ) - (t : ℚ)| ≤ |((3600 * k : ℤ) : ℚ) - (t : ℚ)| ∧
    (r ∈ validTimestamps ts ↔
      ∃ u ∈ ts, roundTimestamp u = r ∧ 0 ≤ r ∧ r ≤ 86400) ∧
    calculate_moving_average_for_window [] data window_size min_points = [] ∧
    avg_array [] i j = sum_array [] i j := by
  refine ⟨?_, ?_, ?_, rfl, ?_⟩
  · unfold roundTimestamp
    exact Int.mul_emod_left _ _
  · unfold roundTimestamp
    have h := pyRound_nearest ((t : ℚ) / 3600) k
    have he1 : (((pyRound ((t : ℚ) / 3600) : ℤ) : ℚ) - (t : ℚ) / 3600) * 3600 =
        ((pyRound ((t : ℚ) / 3600) * 3600 : ℤ) : ℚ) - (t : ℚ) := by
      push_cast
      field_simp
    have he2 : ((k : ℚ) - (t : ℚ) / 3600) * 3600 = ((3600 * k : ℤ) : ℚ) - (t : ℚ) := by
      push_cast
      field_simp
      ring
    rw [← he1, ← he2]
    have habs : ∀ x : ℚ, |x * 3600| = |x| * 3600 := by
      intro x
      rw [abs_mul]
      norm_num
    rw [habs, habs]
    exact mul_le_mul_of_nonneg_right h (by norm_num)
  · unfold validTimestamps
    simp only [List.mem_filter, List.mem_map, decide_eq_true_eq]
    constructor
    · rintro ⟨⟨u, hu, rfl⟩, hrange⟩
      exact ⟨u, hu, rfl, hrange⟩
    · rintro ⟨u, hu, rfl, hrange⟩
      exact ⟨⟨u, hu, rfl⟩, hrange⟩
  · unfold avg_array
    simp

/-! ## Noise field model (emission_models.py, process_noise)

The noise model uses logarithms and powers of ten, so it is embedded
over the real numbers.  The grid geometry constants come from config.py
(the Erstfeld configuration). -/

def GRID_LEFT : ℝ := 16850
def GRID_RIGHT : ℝ := 18630
def GRID_BOTTOM : ℝ := 35000
def GRID_TOP : ℝ := 37720
def GRID_DIM_X : ℕ := 160
def GRID_DIM_Y : ℕ := 250

/-- Python's int() truncation toward zero. -/
noncomputable def pyInt (r : ℝ) : ℤ := if 0 ≤ r then ⌊r⌋ else ⌈r⌉

/-- Cell extent in SUMO coordinates, as computed inside process_noise. -/
noncomputable def cell_dim_x : ℝ := (GRID_RIGHT - GRID_LEFT) / (GRID_DIM_X : ℝ)

noncomputable def cell_dim_y : ℝ := (GRID_TOP - GRID_BOTTOM) / (GRID_DIM_Y : ℝ)

/-- Linear-power contribution of one source (sx, sy, LdB) to cell (x, y),
following the per-source loop of process_noise: a source whose grid index
is out of bounds is skipped; the level is clamped to the background; only
cells in the bounding box are visited; cells farther than the cutoff
radius are skipped; the remaining cells receive
10 ^ ((Lw - 10 * log10 (4 * pi * max (d2, 1))) / 10). -/
noncomputable def sourceContribution (clx cly radius bg : ℝ)
    (src : ℝ × ℝ × ℝ) (x y : ℕ) : ℝ :=
  let xIdx := pyInt ((src.1 - GRID_LEFT) / cell_dim_x)
  let yIdx := pyInt ((src.2.1 - GRID_BOTTOM) / cell_dim_y)
  if 0 ≤ xIdx ∧ xIdx < (GRID_DIM_X : ℤ) ∧ 0 ≤ yIdx ∧ yIdx < (GRID_DIM_Y : ℤ) then
    let Lw := max src.2.2 bg
    if max 0 (xIdx - pyInt (radius / clx)) ≤ (x : ℤ) ∧
        (x : ℤ) < min (GRID_DIM_X : ℤ) (xIdx + pyInt (radius / clx) + 1) ∧
        max 0 (yIdx - pyInt (radius / cly)) ≤ (y : ℤ) ∧
        (y : ℤ) < min (GRID_DIM_Y : ℤ) (yIdx + pyInt (radius / cly) + 1) then
      let dx := ((x : ℝ) - (xIdx : ℝ)) * clx
      let dy := ((y : ℝ) - (yIdx : ℝ)) * cly
      let d2 := dx * dx + dy * dy
      if d2 > radius * radius then 0
      else (10 : ℝ) ^ ((Lw - 10 * Real.logb 10 (4 * Real.pi * max d2 1)) / 10)
    else 0
  else 0

/-- process_noise at one cell: the linear accumulator starts at the
linear power of the background level, each source adds its linear
contribution (the source iterates per source over cells; real addition
being commutative, the accumulated cell value is the background plus the
sum over sources), and the result is converted back to decibels. -/
noncomputable def process_noise (sources : List (ℝ × ℝ × ℝ))
    (clx cly radius bg : ℝ) (x y : ℕ) : ℝ :=
  10 * Real.logb 10
    ((10 : ℝ) ^ (bg / 10) +
      (sources.map (fun s => sourceContribution clx cly radius bg s x y)).sum)

/-- A single in-grid source evaluated at its own cell (distance 0): the
1-meter distance floor makes the surface term 4 * pi, so the cell gets
the background plus 10 ^ (max (L, bg) / 10) / (4 * pi) in linear power. -/
theorem noise_single_source_at_zero (sx sy L clx cly radius bg : ℝ) (x y : ℕ)
    (hclx : 0 < clx) (hcly : 0 < cly) (hrad : 0 ≤ radius)
    (hx : x < GRID_DIM_X) (hy : y < GRID_DIM_Y)
    (hxi : pyInt ((sx - GRID_LEFT) / cell_dim_x) = (x : ℤ))
    (hyi : pyInt ((sy - GRID_BOTTOM) / cell_dim_y) = (y : ℤ)) :
    process_noise [(sx, sy, L)] clx cly radius bg x y =
      10 * Real.logb 10
        ((10 : ℝ) ^ (bg / 10) + (10 : ℝ) ^ (max L bg / 10) / (4 * Real.pi)) := by
  have hKx : 0 ≤ pyInt (radius / clx) := by
    unfold pyInt
    rw [if_pos (div_nonneg hrad (le_of_lt hclx))]
    exact Int.floor_nonneg.mpr (div_nonneg hrad (le_of_lt hclx))
  have hKy : 0 ≤ pyInt (radius / cly) := by
    unfold pyInt
    rw [if_pos (div_nonneg hrad (le_of_lt hcly))]
    exact Int.floor_nonneg.mpr (div_nonneg hrad (le_of_lt hcly))
  have hsc : sourceContribution clx cly radius bg (sx, sy, L) x y =
      (10 : ℝ) ^ (max L bg / 10) / (4 * Real.pi) := by
    unfold sourceContribution
    dsimp only
    rw [hxi, hyi]
    rw [if_pos ⟨Int.natCast_nonneg x, by exact_mod_cast hx,
      Int.natCast_nonneg y, by exact_mod_cast hy⟩]
    rw [if_pos ⟨max_le (Int.natCast_nonneg x) (by omega),
      lt_min (by exact_mod_cast hx) (by omega),
      max_le (Int.natCast_nonneg y) (by omega),
      lt_min (by exact_mod_cast hy) (by omega)⟩]
    push_cast
    simp only [sub_self, zero_mul, mul_zero, add_zero, zero_add]
    rw [if_neg (not_lt.mpr (mul_self_nonneg radius))]
    have hone : max (0 : ℝ) 1 = 1 := max_eq_right zero_le_one
    rw [hone, mul_one]
    have hpi : (0 : ℝ) < 4 * Real.pi := by positivity
    have harg : (max L bg - 10 * Real.logb 10 (4 * Real.pi)) / 10 =
        max L bg / 10 - Real.logb 10 (4 * Real.pi) := by
      field_simp
    rw [harg, Real.rpow_sub (by norm_num : (0 : ℝ) < 10),
      Real.rpow_logb (by norm_num) (by norm_num) hpi]
  unfold process_noise
  rw [List.map_cons, List.map_nil, List.sum_cons, List.sum_nil, add_zero, hsc]

/-- C2 counterexample: a 90 dB source at distance 0 from its own cell
over a 30 dB background gives a cell value below 80 dB, more than 10 dB
away from the claimed max(source_level, background_dB) = 90. -/
theorem c2_counterexample :
    process_noise [(16905.625, 35054.4, 90)] 10 10 500 30 5 5 < 80 ∧
    max (90 : ℝ) 30 = 90 := by
  have hxi : pyInt ((16905.625 - GRID_LEFT) / cell_dim_x) = ((5 : ℕ) : ℤ) := by
    unfold pyInt cell_dim_x GRID_LEFT GRID_RIGHT GRID_DIM_X
    norm_num
  have hyi : pyInt ((35054.4 - GRID_BOTTOM) / cell_dim_y) = ((5 : ℕ) : ℤ) := by
    unfold pyInt cell_dim_y GRID_BOTTOM GRID_TOP GRID_DIM_Y
    norm_num
  have hval := noise_single_source_at_zero 16905.625 35054.4 90 10 10 500 30 5 5
    (by norm_num) (by norm_num) (by norm_num)
    (by norm_num [GRID_DIM_X]) (by norm_num [GRID_DIM_Y]) hxi hyi
  refine ⟨?_, by norm_num⟩
  rw [hval]
  have hmax : max (90 : ℝ) 30 = 90 := by norm_num
  rw [hmax]
  have h3 : (10 : ℝ) ^ ((30 : ℝ) / 10) = 1000 := by
    rw [show (30 : ℝ) / 10 = ((3 : ℕ) : ℝ) by norm_num, Real.rpow_natCast]
    norm_num
  have h9 : (10 : ℝ) ^ ((90 : ℝ) / 10) = 1000000000 := by
    rw [show (90 : ℝ) / 10 = ((9 : ℕ) : ℝ) by norm_num, Real.rpow_natCast]
    norm_num
  rw [h3, h9]
  have hpi12 : (12 : ℝ) < 4 * Real.pi := by
    have := Real.pi_gt_three
    linarith
  have hpos : (0 : ℝ) < 1000 + 1000000000 / (4 * Real.pi) := by positivity
  have hlt : 1000 + 1000000000 / (4 * Real.pi) < 100000000 := by
    have h1 : (1000000000 : ℝ) / (4 * Real.pi) < 1000000000 / 12 :=
      div_lt_div_of_pos_left (by norm_num) (by norm_num) hpi12
    linarith
  have hlogb := Real.logb_lt_logb (by norm_num : (1 : ℝ) < 10) hpos hlt
  have hl8 : Real.logb 10 (100000000 : ℝ) = 8 := by
    rw [show (100000000 : ℝ) = (10 : ℝ) ^ ((8 : ℕ) : ℝ) by
        rw [Real.rpow_natCast]; norm_num,
      Real.logb_rpow (by norm_num) (by norm_num)]
    norm_num
  rw [hl8] at hlogb
  linarith

/-- C2 amended: for every single-source input whose source lies at
distance 0 from a grid cell, inside the grid and the cutoff radius, the
computed level of that cell is
10 * log10 (10^(background_dB/10) + 10^(max(source_level, background_dB)/10) / (4 pi)),
i.e. the source's power is attenuated by the 1-meter floor term
10 * log10(4 pi) (about 11 dB) and summed with the background in linear
power; it does not equal max(source_level, background_dB). -/
theorem c2_noise_distance_zero_amended (sx sy L clx cly radius bg : ℝ) (x y : ℕ)
    (hclx : 0 < clx) (hcly : 0 < cly) (hrad : 0 ≤ radius)
    (hx : x < GRID_DIM_X) (hy : y < GRID_DIM_Y)
    (hxi : pyInt ((sx - GRID_LEFT) / cell_dim_x) = (x : ℤ))
    (hyi : pyInt ((sy - GRID_BOTTOM) / cell_dim_y) = (y : ℤ)) :
    process_noise [(sx, sy, L)] clx cly radius bg x y =
      10 * Real.logb 10
        ((10 : ℝ) ^ (bg / 10) + (10 : ℝ) ^ (max L bg / 10) / (4 * Real.pi)) :=
  noise_single_source_at_zero sx sy L clx cly radius bg x y
    hclx hcly hrad hx hy hxi hyi

/-- Witness for the amended C2 theorem: the concrete 90 dB source of the
counterexample. -/
theorem c2_witness :
    process_noise [(16905.625, 35054.4, 90)] 10 10 500 30 5 5 =
      10 * Real.logb 10
        ((10 : ℝ) ^ ((30 : ℝ) / 10) +
          (10 : ℝ) ^ (max (90 : ℝ) 30 / 10) / (4 * Real.pi)) :=
  c2_noise_distance_zero_amended 16905.625 35054.4 90 10 10 500 30 5 5
    (by norm_num) (by norm_num) (by norm_num)
    (by norm_num [GRID_DIM_X]) (by norm_num [GRID_DIM_Y])
    (by unfold pyInt cell_dim_x GRID_LEFT GRID_RIGHT GRID_DIM_X; norm_num)
    (by unfold pyInt cell_dim_y GRID_BOTTOM GRID_TOP GRID_DIM_Y; norm_num)

end FDMSumo
